import Mathlib

/-!
Verification of the offline-first quiz client's durable store and
reconciliation logic, shallowly embedded from the JavaScript source
(`OfflineManager`, `QuizInterface.completeQuiz`, `TeacherChat`,
`CourseList.loadCourses`, `MoodleAPI`).

Modelling conventions:
* The persistence layer is IndexedDB.  Each object store is keyed by a
  stable identifier (`keyPath`), holds at most one record per key, and
  `getAll` returns records in ascending key order.  We embed each object
  store as a `List` of records kept sorted by its key, and `store.put`
  (the `add`/`put` cases of `performDBOperation`) as ordered
  insert-or-replace (`putRecord`).
* Timestamps (`Date.now()`, ISO-8601 strings produced by
  `toISOString()`) are modelled as `Nat`; comparison of ISO strings of
  equal format agrees with chronological comparison.  Record ids of the
  form `submission-${Date.now()}` / `msg-${Date.now()}` are modelled as
  the `Nat` timestamp itself; lexicographic order on those strings
  agrees with numeric order of the timestamps.
* Fields that a JavaScript object may simply lack (`syncedAt`,
  `storedAt` on messages) are modelled as `Option Nat`; the source's
  `undefined < isoString` comparison is `false`, which the embedding
  mirrors by treating `none` as not satisfying any `< cutoff` test.
* Remote calls that the prototype simulates (the per-entry dispatch in
  `syncPendingData` / `syncPendingMessages`) are modelled as an injected
  oracle `gw : Nat → Bool` giving the success of the dispatch for a
  given ledger-entry id; a `false` result models the thrown
  `RemoteCallFailed`, which propagates out of the `for` loop to the
  surrounding `try`/`catch` exactly as in the source.
-/

/-- Role discriminator of a chat `Message` (`message.type` in the source:
`'student' | 'teacher' | 'system'`). -/
inductive MsgType where
  | student
  | teacher
  | system
deriving DecidableEq, Repr

/-- A record of the `messages` object store (keyPath `id`).  Created by
`TeacherChat.handleSendMessage` and stored via
`OfflineManager.storeChatMessage`, which adds `quizId` and `storedAt`. -/
structure Message where
  id : Nat
  quizId : Nat
  type : MsgType
  content : String
  timestamp : Nat
  sender : String
  synced : Bool
  syncedAt : Option Nat
  storedAt : Option Nat
deriving DecidableEq, Repr

/-- A record of the `submissions` object store (keyPath `id`), the
pending-operation ledger for quiz attempts.  Built in
`QuizInterface.completeQuiz`; `OfflineManager.storeSubmission` overwrites
`synced` and `storedAt` at write time. -/
structure Submission where
  id : Nat
  quizId : Nat
  userId : Nat
  answers : List (Nat × Nat)
  completedAt : Nat
  token : String
  synced : Bool
  storedAt : Nat
  syncedAt : Option Nat
deriving DecidableEq, Repr

/-- A record of the `courses` object store (keyPath `id`);
`storeCourses` stamps `cachedAt` at write time. -/
structure Course where
  id : Nat
  name : String
  summary : String
  cachedAt : Nat
deriving DecidableEq, Repr

/-- A record of the `quizzes` object store (keyPath `id`). -/
structure Quiz where
  id : Nat
  courseId : Nat
  name : String
  cachedAt : Nat
deriving DecidableEq, Repr

/-- A record of the `quizDetails` object store (keyPath `id`). -/
structure QuizDetail where
  id : Nat
  questions : List Nat
  cachedAt : Nat
deriving DecidableEq, Repr

/-- A record of the `teachers` object store (keyPath `courseId`). -/
structure Teacher where
  courseId : Nat
  name : String
  cachedAt : Nat
deriving DecidableEq, Repr

/-- The whole `MoodleQuizDB` database: the six object stores created in
`OfflineManager.initialize`. -/
structure OfflineDB where
  courses : List Course
  quizzes : List Quiz
  quizDetails : List QuizDetail
  messages : List Message
  submissions : List Submission
  teachers : List Teacher
deriving DecidableEq, Repr

/-- The freshly created database: every object store empty. -/
def OfflineDB.empty : OfflineDB :=
  { courses := [], quizzes := [], quizDetails := [], messages := []
    submissions := [], teachers := [] }

/-- Embeds `OfflineManager.initialize` run against an already-existing
database: opening `MoodleQuizDB` at the same version leaves every object
store's contents untouched (`onupgradeneeded` does not fire, and even
when it does it only creates missing stores).  Used to model a process
restart: IndexedDB contents are durable. -/
def reopenDB (db : OfflineDB) : OfflineDB := db

/-- Embeds the `add`/`put` cases of `OfflineManager.performDBOperation`:
`store.put(data)` replaces the record stored under `data`'s key, or
inserts it if absent.  The list is kept in ascending key order, matching
the order in which IndexedDB enumerates an object store. -/
def putRecord {α : Type} (key : α → Nat) (r : α) : List α → List α
  | [] => [r]
  | x :: xs =>
    if key r < key x then r :: x :: xs
    else if key r = key x then r :: xs
    else x :: putRecord key r xs

/-- Invariant of every embedded object store: records strictly ascending
in their key, hence at most one record per key (IndexedDB keyed store). -/
def StoreSorted {α : Type} (key : α → Nat) (l : List α) : Prop :=
  l.Pairwise fun a b => key a < key b

/-- Embeds `OfflineManager.storeCourses`: for each course, `put` the
record with a fresh `cachedAt` stamp. -/
def storeCourses (now : Nat) (courses : List Course) (cache : List Course) : List Course :=
  courses.foldl (fun acc c => putRecord Course.id { c with cachedAt := now } acc) cache

/-- Embeds `OfflineManager.getCachedCourses`: `getAll` on `courses`
(internal failures are caught and degrade to `[]`; the embedded store
cannot fail, so this is the cache itself). -/
def getCachedCourses (cache : List Course) : List Course := cache

/-- Embeds `OfflineManager.storeSubmission`: `put` of
`{...submission, synced: false, storedAt: now}` — the spread keeps every
other field of the input record (including a pre-existing `syncedAt`)
but always overwrites `synced` to `false` and `storedAt` to now. -/
def storeSubmission (now : Nat) (submission : Submission) (subs : List Submission) :
    List Submission :=
  putRecord Submission.id { submission with synced := false, storedAt := now } subs

/-- Embeds `OfflineManager.getPendingSubmissions`: `getByIndex` on the
`synced` index with value `false`, i.e. the unsynced entries in
ascending primary-key order. -/
def getPendingSubmissions (subs : List Submission) : List Submission :=
  subs.filter fun s => !s.synced

/-- Embeds `OfflineManager.markSubmissionSynced`: `get` the record by id;
if present, set `synced = true` and `syncedAt` and `put` it back; if
absent, do nothing (the `if (submission)` guard). -/
def markSubmissionSynced (now : Nat) (submissionId : Nat) (subs : List Submission) :
    List Submission :=
  match subs.find? (fun s => s.id == submissionId) with
  | none => subs
  | some s => putRecord Submission.id { s with synced := true, syncedAt := some now } subs

/-- `markSubmissionSynced` lifted to the database; the source function
touches only the `submissions` object store. -/
def markSubmissionSyncedDB (now : Nat) (submissionId : Nat) (db : OfflineDB) : OfflineDB :=
  { db with submissions := markSubmissionSynced now submissionId db.submissions }

/-- Embeds `OfflineManager.storeChatMessage`: `put` of
`{...message, quizId, storedAt: now}`. -/
def storeChatMessage (quizId : Nat) (now : Nat) (message : Message) (msgs : List Message) :
    List Message :=
  putRecord Message.id { message with quizId := quizId, storedAt := some now } msgs

/-- Embeds the filter in `OfflineManager.syncPendingMessages`:
`allMessages.filter(msg => msg.type === 'student' && !msg.synced)` over
the `getAll` result (ascending key order). -/
def pendingMessages (msgs : List Message) : List Message :=
  msgs.filter fun m => decide (m.type = MsgType.student) && !m.synced

/-- The `for` loop of `syncPendingData` over the pending submissions:
for each entry, attempt the remote dispatch; on success mark the entry
synced; on failure the raised error aborts the whole pass (no per-entry
`catch` in the source).  Returns the updated store, the ids dispatched
in order, and whether the pass ran to completion. -/
def drainSubsGo (gw : Nat → Bool) (now : Nat) :
    List Submission → List Submission → List Submission × List Nat × Bool
  | [], store => (store, [], true)
  | p :: ps, store =>
    if gw p.id then
      let res := drainSubsGo gw now ps (markSubmissionSynced now p.id store)
      (res.1, p.id :: res.2.1, res.2.2)
    else (store, [p.id], false)

/-- The `for` loop of `syncPendingMessages`: for each pending message,
attempt the remote dispatch; on success set `synced`/`syncedAt` on the
snapshot record and `put` it back; on failure abort the pass. -/
def drainMsgsGo (gw : Nat → Bool) (now : Nat) :
    List Message → List Message → List Message × List Nat × Bool
  | [], store => (store, [], true)
  | m :: ms, store =>
    if gw m.id then
      let res := drainMsgsGo gw now ms
        (putRecord Message.id { m with synced := true, syncedAt := some now } store)
      (res.1, m.id :: res.2.1, res.2.2)
    else (store, [m.id], false)

/-- Embeds `OfflineManager.syncPendingMessages`: read all messages,
filter the unsynced student ones, and run the dispatch loop.  Errors are
caught inside the function (swallowed), which the caller observes only
through the returned completion flag. -/
def syncPendingMessages (gw : Nat → Bool) (now : Nat) (msgs : List Message) :
    List Message × List Nat × Bool :=
  drainMsgsGo gw now (pendingMessages msgs) msgs

/-- Embeds `OfflineManager.syncPendingData`: drain the pending
submissions; an error there is caught at the end of the function and
skips the call to `syncPendingMessages`.  Returns the database together
with the submission ids and message ids dispatched, in dispatch order. -/
def syncPendingData (gwSub gwMsg : Nat → Bool) (now : Nat) (db : OfflineDB) :
    OfflineDB × List Nat × List Nat :=
  let rs := drainSubsGo gwSub now (getPendingSubmissions db.submissions) db.submissions
  if rs.2.2 then
    let rm := syncPendingMessages gwMsg now db.messages
    ({ db with submissions := rs.1, messages := rm.1 }, rs.2.1, rm.2.1)
  else
    ({ db with submissions := rs.1 }, rs.2.1, [])

/-- The deletion test of `cleanupOldData` for submissions:
`submission.synced && submission.syncedAt < cutoffISO` (a record without
`syncedAt` compares `undefined < string`, which is `false`). -/
def evictSub (cutoff : Nat) (s : Submission) : Bool :=
  s.synced && (match s.syncedAt with | some t => decide (t < cutoff) | none => false)

/-- The deletion test of `cleanupOldData` for messages:
`message.storedAt < cutoffISO`. -/
def evictMsg (cutoff : Nat) (m : Message) : Bool :=
  match m.storedAt with | some t => decide (t < cutoff) | none => false

/-- Embeds `OfflineManager.cleanupOldData`, with `cutoff` the computed
cutoff instant (the source derives it as now minus `daysToKeep` days and
compares ISO strings).  For each submission in the `getAll` snapshot
satisfying the eviction test, `delete` it by id; likewise for messages.
No other object store is touched. -/
def cleanupOldData (cutoff : Nat) (db : OfflineDB) : OfflineDB :=
  let subs := db.submissions.foldl
    (fun store s => if evictSub cutoff s then store.filter (fun x => x.id != s.id) else store)
    db.submissions
  let msgs := db.messages.foldl
    (fun store m => if evictMsg cutoff m then store.filter (fun x => x.id != m.id) else store)
    db.messages
  { db with submissions := subs, messages := msgs }

/-- The submission object literal built in `QuizInterface.completeQuiz`:
`{id: submission-${Date.now()}, quizId, userId, answers, completedAt,
token}`.  Fields the literal does not mention (`synced`, `storedAt`,
`syncedAt`) are absent in the source object; `storeSubmission`
overwrites the first two and `syncedAt` stays absent (`none`). -/
def newSubmission (now quizId userId : Nat) (answers : List (Nat × Nat)) (token : String) :
    Submission :=
  { id := now, quizId := quizId, userId := userId, answers := answers
    completedAt := now, token := token, synced := false, storedAt := now, syncedAt := none }

/-- Embeds `QuizInterface.completeQuiz`.  If online, `submitQuiz` is
called immediately with the fresh submission and the ledger is never
touched — whether that remote call succeeds (`remoteOk = true`) or
throws (`remoteOk = false`, the `catch` branch only shows a message).
If offline, the submission is durably stored via `storeSubmission` and
no remote call is made.  Returns the submissions store and the list of
ids for which a remote submit was attempted. -/
def completeQuiz (isOnline remoteOk : Bool) (now quizId userId : Nat)
    (answers : List (Nat × Nat)) (token : String) (subs : List Submission) :
    List Submission × List Nat :=
  let submission := newSubmission now quizId userId answers token
  if isOnline then (subs, [submission.id])
  else (storeSubmission now submission subs, [])

/-- Embeds `MoodleAPI.supportsChatAPI`, which always returns `false` in
the source ("For now, we'll use offline-only chat"). -/
def supportsChatAPI : Bool := false

/-- Embeds `TeacherChat.handleSendMessage`: build the student message
(`synced: false`, no `storedAt` yet), store it locally, and — only when
online and the remote supports the chat API — send it and re-`put` the
in-memory record with `synced = true` (the in-memory record never
acquired `storedAt`, so the re-`put` stores it without one, exactly as
the source does).  Returns the messages store and the ids for which a
remote send was attempted. -/
def handleSendMessage (isOnline : Bool) (now quizId : Nat) (sender content : String)
    (msgs : List Message) : List Message × List Nat :=
  let message : Message :=
    { id := now, quizId := quizId, type := MsgType.student, content := content
      timestamp := now, sender := sender, synced := false, syncedAt := none, storedAt := none }
  let stored := storeChatMessage quizId now message msgs
  if isOnline && supportsChatAPI then
    (putRecord Message.id { message with synced := true } stored, [message.id])
  else (stored, [])

/-- The error text set by `CourseList.loadCourses` when offline with an
empty cache — the surfaced `NotFoundOffline` condition. -/
def offlineNoCoursesMsg : String :=
  "No courses available offline. Please connect to internet to download courses."

/-- Embeds `CourseList.loadCourses`.  `remote` is the outcome of
`moodleAPI.getUserCourses` (`none` = the call threw).  Returns the
courses handed to the view, the updated cache, and the error message, if
any, that was surfaced.  Offline, the cache is read (never throwing —
`getCachedCourses` degrades to `[]`); an empty result surfaces the
not-found-offline error and leaves the initial empty course list. -/
def loadCourses (isOnline : Bool) (remote : Option (List Course)) (now : Nat)
    (cache : List Course) : List Course × List Course × Option String :=
  if isOnline then
    match remote with
    | some cs => (cs, storeCourses now cs cache, none)
    | none =>
      if (getCachedCourses cache).isEmpty then
        ([], cache, some "Failed to load courses. Please try again.")
      else (getCachedCourses cache, cache, some "Showing cached courses (offline)")
  else
    if (getCachedCourses cache).isEmpty then ([], cache, some offlineNoCoursesMsg)
    else (getCachedCourses cache, cache, none)

/-- Embeds `TeacherChat.mergeMessages`'s dedupe `reduce`: walk the
concatenated list, appending a message to the accumulator only when no
message with the same id is already there. -/
def dedupeById (acc : List Message) : List Message → List Message
  | [] => acc
  | m :: ms =>
    if (acc.find? fun x => x.id == m.id).isSome then dedupeById acc ms
    else dedupeById (acc ++ [m]) ms

/-- Embeds `TeacherChat.mergeMessages`: concatenate server messages with
local messages, drop later occurrences of an already-seen id, and sort
by timestamp ascending (`new Date(a.timestamp) - new Date(b.timestamp)`;
JavaScript's sort is a stable merge sort in modern engines). -/
def mergeMessages (serverMessages localMessages : List Message) : List Message :=
  (dedupeById [] (serverMessages ++ localMessages)).mergeSort
    fun a b => decide (a.timestamp ≤ b.timestamp)

/-- One user action performed while offline: completing a quiz attempt
(`QuizInterface.completeQuiz` with `isOnline = false`) or sending a chat
message (`TeacherChat.handleSendMessage` with `isOnline = false`). -/
inductive OfflineAction where
  | submitAttempt (quizId userId : Nat) (answers : List (Nat × Nat)) (token : String)
  | sendMessage (quizId : Nat) (sender content : String)
deriving DecidableEq, Repr

/-- Whether the action is a quiz-attempt submission. -/
def OfflineAction.isSubmit : OfflineAction → Bool
  | .submitAttempt .. => true
  | .sendMessage .. => false

/-- Whether the action is a chat-message send. -/
def OfflineAction.isSend (a : OfflineAction) : Bool := !a.isSubmit

/-- Apply one offline action, performed at instant `t`, to the database
through the embedded source operations. -/
def applyOffline (p : Nat × OfflineAction) (db : OfflineDB) : OfflineDB :=
  match p.2 with
  | .submitAttempt quizId userId answers token =>
    { db with submissions :=
        (completeQuiz false true p.1 quizId userId answers token db.submissions).1 }
  | .sendMessage quizId sender content =>
    { db with messages :=
        (handleSendMessage false p.1 quizId sender content db.messages).1 }

/-- Apply a timestamped sequence of offline actions in order. -/
def applyActions (acts : List (Nat × OfflineAction)) (db : OfflineDB) : OfflineDB :=
  acts.foldl (fun db p => applyOffline p db) db

/-- The ledger entry each offline submit action leaves in the
`submissions` store (what `storeSubmission` makes of the
`completeQuiz` literal). -/
def subsOf (acts : List (Nat × OfflineAction)) : List Submission :=
  acts.filterMap fun p =>
    match p.2 with
    | .submitAttempt quizId userId answers token =>
      some (newSubmission p.1 quizId userId answers token)
    | .sendMessage _ _ _ => none

/-- The record each offline send action leaves in the `messages` store
(what `storeChatMessage` makes of the `handleSendMessage` literal). -/
def msgsOf (acts : List (Nat × OfflineAction)) : List Message :=
  acts.filterMap fun p =>
    match p.2 with
    | .submitAttempt _ _ _ _ => none
    | .sendMessage quizId sender content =>
      some { id := p.1, quizId := quizId, type := MsgType.student, content := content
             timestamp := p.1, sender := sender, synced := false, syncedAt := none
             storedAt := some p.1 }

/-- The field update `markSubmissionSynced` performs on the found
record. -/
def markSub (now : Nat) (s : Submission) : Submission :=
  { s with synced := true, syncedAt := some now }

/-- Pointwise effect of `markSubmissionSynced now i` on one stored
record: marked when its id matches, untouched otherwise. -/
def updSub (now i : Nat) (s : Submission) : Submission :=
  if s.id = i then markSub now s else s

/-- The record the message-sync loop writes back for snapshot entry
`m`: `m` with `synced = true` and a `syncedAt` stamp. -/
def markMsg (now : Nat) (m : Message) : Message :=
  { m with synced := true, syncedAt := some now }

/-- Pointwise effect of the message-sync write-back for snapshot entry
`m` on one stored record. -/
def updMsg (now : Nat) (m z : Message) : Message :=
  if z.id = m.id then markMsg now m else z

/-! ### General lemmas about the embedded object store -/

theorem putRecord_ne_nil {α : Type} (key : α → Nat) (r : α) (l : List α) :
    putRecord key r l ≠ [] := by
  cases l with
  | nil => simp [putRecord]
  | cons x xs =>
    simp only [putRecord]
    split <;> [skip; split] <;> simp

theorem mem_putRecord_self {α : Type} (key : α → Nat) (r : α) (l : List α) :
    r ∈ putRecord key r l := by
  induction l with
  | nil => simp [putRecord]
  | cons x xs ih =>
    simp only [putRecord]
    split
    · simp
    · split
      · simp
      · simpa using Or.inr ih

theorem mem_putRecord {α : Type} {key : α → Nat} {r y : α} {l : List α}
    (h : y ∈ putRecord key r l) : y = r ∨ y ∈ l := by
  induction l with
  | nil => simpa [putRecord] using h
  | cons x xs ih =>
    simp only [putRecord] at h
    split at h
    · simp only [List.mem_cons] at h ⊢
      tauto
    · split at h
      · simp only [List.mem_cons] at h ⊢
        tauto
      · simp only [List.mem_cons] at h ⊢
        rcases h with h | h
        · tauto
        · rcases ih h with h | h <;> tauto

theorem putRecord_sorted {α : Type} {key : α → Nat} {l : List α} (r : α)
    (hs : StoreSorted key l) : StoreSorted key (putRecord key r l) := by
  induction l with
  | nil => simp [putRecord, StoreSorted]
  | cons x xs ih =>
    rw [StoreSorted, List.pairwise_cons] at hs
    obtain ⟨hx, hxs⟩ := hs
    simp only [putRecord]
    split
    · rename_i hlt
      refine List.Pairwise.cons ?_ (List.Pairwise.cons hx hxs)
      intro y hy
      rcases List.mem_cons.mp hy with hy | hy
      · subst hy; exact hlt
      · exact lt_trans hlt (hx y hy)
    · split
      · rename_i heq
        refine List.Pairwise.cons ?_ hxs
        intro y hy
        rw [heq]
        exact hx y hy
      · rename_i hlt heq
        refine List.Pairwise.cons ?_ (ih hxs)
        intro y hy
        rcases mem_putRecord hy with hy | hy
        · subst hy
          omega
        · exact hx y hy

theorem putRecord_append_gt {α : Type} {key : α → Nat} (r : α) {l : List α}
    (h : ∀ x ∈ l, key x < key r) : putRecord key r l = l ++ [r] := by
  induction l with
  | nil => simp [putRecord]
  | cons x xs ih =>
    have hx := h x (by simp)
    simp only [putRecord]
    rw [if_neg (by omega), if_neg (by omega)]
    simp [ih fun y hy => h y (by simp [hy])]

theorem find?_putRecord_self {α : Type} {key : α → Nat} (r : α) {l : List α}
    (hs : StoreSorted key l) :
    (putRecord key r l).find? (fun x => key x == key r) = some r := by
  induction l with
  | nil => simp [putRecord]
  | cons x xs ih =>
    rw [StoreSorted, List.pairwise_cons] at hs
    obtain ⟨hx, hxs⟩ := hs
    simp only [putRecord]
    split
    · simp
    · split
      · simp
      · rename_i hlt heq
        rw [List.find?_cons_of_neg _ (by simp; omega)]
        exact ih hxs

theorem filter_key_putRecord {α : Type} {key : α → Nat} (r : α) {l : List α}
    (hs : StoreSorted key l) :
    (putRecord key r l).filter (fun x => key x == key r) = [r] := by
  induction l with
  | nil => simp [putRecord]
  | cons x xs ih =>
    rw [StoreSorted, List.pairwise_cons] at hs
    obtain ⟨hx, hxs⟩ := hs
    simp only [putRecord]
    split
    · rename_i hlt
      rw [List.filter_cons_of_pos (by simp), List.filter_cons_of_neg (by simp; omega)]
      have : ∀ y ∈ xs, ¬(key y == key r) = true := by
        intro y hy
        have := hx y hy
        simp; omega
      simp [List.filter_eq_nil_iff.mpr this]
    · split
      · rename_i heq
        rw [List.filter_cons_of_pos (by simp)]
        have : ∀ y ∈ xs, ¬(key y == key r) = true := by
          intro y hy
          have := hx y hy
          simp; omega
        simp [List.filter_eq_nil_iff.mpr this]
      · rename_i hlt heq
        rw [List.filter_cons_of_neg (by simp; omega)]
        exact ih hxs

theorem putRecord_eq_map {α : Type} {key : α → Nat} (r : α) {l : List α}
    (hs : StoreSorted key l) (hex : ∃ x ∈ l, key x = key r) :
    putRecord key r l = l.map fun x => if key x = key r then r else x := by
  induction l with
  | nil => simp at hex
  | cons x xs ih =>
    rw [StoreSorted, List.pairwise_cons] at hs
    obtain ⟨hx, hxs⟩ := hs
    simp only [putRecord]
    split
    · rename_i hlt
      exfalso
      obtain ⟨y, hy, hyk⟩ := hex
      rcases List.mem_cons.mp hy with hy | hy
      · subst hy; omega
      · have := hx y hy; omega
    · split
      · rename_i heq
        have hmap : ∀ y ∈ xs, (if key y = key r then r else y) = y := by
          intro y hy
          have := hx y hy
          rw [if_neg (by omega)]
        simp only [List.map_cons, if_pos heq.symm]
        rw [List.map_congr_left hmap]
        simp
      · rename_i hlt heq
        have hex' : ∃ y ∈ xs, key y = key r := by
          obtain ⟨y, hy, hyk⟩ := hex
          rcases List.mem_cons.mp hy with hy | hy
          · subst hy; omega
          · exact ⟨y, hy, hyk⟩
        simp only [List.map_cons, if_neg (by omega : ¬key x = key r)]
        rw [ih hxs hex']

/-! ### The delete loop of `cleanupOldData` -/

theorem beq_nat_comm (a b : Nat) : (a == b) = (b == a) := by
  by_cases h : a = b <;> simp [beq_iff_eq, h, eq_comm]

theorem foldl_delete_eq_filter {α : Type} (key : α → Nat) (pred : α → Bool) :
    ∀ (snap store : List α),
      snap.foldl
        (fun st s => if pred s then st.filter (fun x => key x != key s) else st) store
        = store.filter fun x => !(snap.any fun s => pred s && key s == key x) := by
  intro snap
  induction snap with
  | nil =>
    intro store
    simp
  | cons s snap ih =>
    intro store
    simp only [List.foldl_cons]
    by_cases hp : pred s = true
    · rw [if_pos hp, ih, List.filter_filter]
      apply List.filter_congr
      intro x _
      have hcomm : (key x != key s) = !(key s == key x) := by
        simp [bne, beq_nat_comm]
      simp only [List.any_cons, hp, Bool.true_and, Bool.not_or, hcomm]
      cases key s == key x <;> cases snap.any fun t => pred t && key t == key x <;> rfl
    · rw [if_neg hp, ih]
      apply List.filter_congr
      intro x _
      have hps : pred s = false := by simpa using hp
      simp [hps]

theorem mem_delete_filter_iff {α : Type} (key : α → Nat) (pred : α → Bool)
    (store : List α) (hn : (store.map key).Nodup) (x : α) :
    x ∈ store.filter (fun x => !(store.any fun s => pred s && key s == key x))
      ↔ x ∈ store ∧ pred x = false := by
  rw [List.mem_filter]
  constructor
  · rintro ⟨hx, hb⟩
    refine ⟨hx, ?_⟩
    by_contra hpx
    have hpx : pred x = true := by simpa using hpx
    have hany : store.any (fun s => pred s && key s == key x) = true :=
      List.any_eq_true.mpr ⟨x, hx, by simp [hpx]⟩
    rw [hany] at hb
    simp at hb
  · rintro ⟨hx, hpx⟩
    refine ⟨hx, ?_⟩
    have hany : store.any (fun s => pred s && key s == key x) = false := by
      rw [List.any_eq_false]
      intro s hs hb
      simp only [Bool.and_eq_true, beq_iff_eq] at hb
      obtain ⟨hb1, hb2⟩ := hb
      have hsx : s = x := List.inj_on_of_nodup_map hn hs hx hb2
      subst hsx
      rw [hpx] at hb1
      exact Bool.false_ne_true hb1
    simp [hany]

theorem evictSub_eq_true_iff (cutoff : Nat) (s : Submission) :
    evictSub cutoff s = true ↔ s.synced = true ∧ ∃ t, s.syncedAt = some t ∧ t < cutoff := by
  cases h : s.syncedAt <;> simp [evictSub, h]

theorem evictMsg_eq_true_iff (cutoff : Nat) (m : Message) :
    evictMsg cutoff m = true ↔ ∃ t, m.storedAt = some t ∧ t < cutoff := by
  cases h : m.storedAt <;> simp [evictMsg, h]

/-- C5: `cleanupOldData` (the source's `evictOlderThan`) deletes exactly
the submissions with `synced = true` and `syncedAt` strictly before the
cutoff, and exactly the messages with `storedAt` strictly before the
cutoff; all other entries of those two stores are retained.  The
hypotheses are the object-store key invariant (at most one record per
id). -/
theorem cleanupOldData_evicts_exactly (db : OfflineDB) (cutoff : Nat)
    (hs : (db.submissions.map Submission.id).Nodup)
    (hm : (db.messages.map Message.id).Nodup) :
    (∀ s, s ∈ (cleanupOldData cutoff db).submissions ↔
        s ∈ db.submissions ∧ ¬(s.synced = true ∧ ∃ t, s.syncedAt = some t ∧ t < cutoff)) ∧
    (∀ m, m ∈ (cleanupOldData cutoff db).messages ↔
        m ∈ db.messages ∧ ¬(∃ t, m.storedAt = some t ∧ t < cutoff)) := by
  constructor
  · intro s
    simp only [cleanupOldData]
    rw [foldl_delete_eq_filter Submission.id (evictSub cutoff),
      mem_delete_filter_iff Submission.id _ _ hs]
    apply and_congr_right'
    rw [Bool.eq_false_iff, Ne]
    exact not_congr (evictSub_eq_true_iff cutoff s)
  · intro m
    simp only [cleanupOldData]
    rw [foldl_delete_eq_filter Message.id (evictMsg cutoff),
      mem_delete_filter_iff Message.id _ _ hm]
    apply and_congr_right'
    rw [Bool.eq_false_iff, Ne]
    exact not_congr (evictMsg_eq_true_iff cutoff m)

/-- C5 witness: with cutoff 100, a synced submission with
`syncedAt = 99` (one second before the cutoff) is evicted and one with
`syncedAt = 101` is retained. -/
theorem cleanupOldData_evicts_exactly_witness :
    ({ id := 1, quizId := 1, userId := 1, answers := [], completedAt := 1, token := ""
       synced := true, storedAt := 1, syncedAt := some 99 } : Submission) ∉
      (cleanupOldData 100
        { OfflineDB.empty with submissions :=
            [{ id := 1, quizId := 1, userId := 1, answers := [], completedAt := 1, token := ""
               synced := true, storedAt := 1, syncedAt := some 99 },
             { id := 2, quizId := 1, userId := 1, answers := [], completedAt := 2, token := ""
               synced := true, storedAt := 2, syncedAt := some 101 }] }).submissions ∧
    ({ id := 2, quizId := 1, userId := 1, answers := [], completedAt := 2, token := ""
       synced := true, storedAt := 2, syncedAt := some 101 } : Submission) ∈
      (cleanupOldData 100
        { OfflineDB.empty with submissions :=
            [{ id := 1, quizId := 1, userId := 1, answers := [], completedAt := 1, token := ""
               synced := true, storedAt := 1, syncedAt := some 99 },
             { id := 2, quizId := 1, userId := 1, answers := [], completedAt := 2, token := ""
               synced := true, storedAt := 2, syncedAt := some 101 }] }).submissions := by
  have h := cleanupOldData_evicts_exactly
    { OfflineDB.empty with submissions :=
        [{ id := 1, quizId := 1, userId := 1, answers := [], completedAt := 1, token := ""
           synced := true, storedAt := 1, syncedAt := some 99 },
         { id := 2, quizId := 1, userId := 1, answers := [], completedAt := 2, token := ""
           synced := true, storedAt := 2, syncedAt := some 101 }] }
    100 (by decide) (by decide)
  constructor
  · intro hmem
    obtain ⟨-, hno⟩ := (h.1 _).mp hmem
    exact hno ⟨rfl, 99, rfl, by omega⟩
  · refine (h.1 _).mpr ⟨by simp, ?_⟩
    rintro ⟨-, t, ht, hlt⟩
    cases ht
    omega

/-- C8: the time-based eviction touches only the `submissions` and
`messages` object stores — `courses`, `quizzes` (assessments),
`quizDetails` (assessment detail) and `teachers` (counterpart contacts)
are returned unchanged, and the two affected stores can only lose
entries (the result is a sublist of the original). -/
theorem cleanupOldData_frame (db : OfflineDB) (cutoff : Nat) :
    (cleanupOldData cutoff db).courses = db.courses ∧
    (cleanupOldData cutoff db).quizzes = db.quizzes ∧
    (cleanupOldData cutoff db).quizDetails = db.quizDetails ∧
    (cleanupOldData cutoff db).teachers = db.teachers ∧
    (cleanupOldData cutoff db).submissions.Sublist db.submissions ∧
    (cleanupOldData cutoff db).messages.Sublist db.messages := by
  refine ⟨rfl, rfl, rfl, rfl, ?_, ?_⟩
  · simp only [cleanupOldData]
    rw [foldl_delete_eq_filter Submission.id (evictSub cutoff)]
    exact List.filter_sublist _
  · simp only [cleanupOldData]
    rw [foldl_delete_eq_filter Message.id (evictMsg cutoff)]
    exact List.filter_sublist _

/-! ### Upsert semantics (claim C4) -/

/-- C4: writes are upserts, never append-duplicates.  For any keyed
store satisfying the key invariant, two `put`s with the same key leave
exactly one record under that key, holding the later payload; in
particular storing the same course twice (same id, different payload)
leaves exactly one `courses` record with the latest payload. -/
theorem putRecord_upsert_latest {α : Type} (key : α → Nat) (l : List α) (v1 v2 : α)
    (hs : StoreSorted key l) (hk : key v1 = key v2) :
    (putRecord key v2 (putRecord key v1 l)).filter (fun x => key x == key v2) = [v2] ∧
    ∀ (db : List Course) (c1 c2 : Course) (now1 now2 : Nat),
      StoreSorted Course.id db → c1.id = c2.id →
      (storeCourses now2 [c2] (storeCourses now1 [c1] db)).filter
          (fun x => x.id == c2.id) = [{ c2 with cachedAt := now2 }] := by
  constructor
  · exact filter_key_putRecord v2 (putRecord_sorted v1 hs)
  · intro db c1 c2 now1 now2 hdb hid
    simp only [storeCourses, List.foldl_cons, List.foldl_nil]
    exact filter_key_putRecord { c2 with cachedAt := now2 }
      (putRecord_sorted { c1 with cachedAt := now1 } hdb)

/-- C4 witness: storing course id 7 twice with different payloads leaves
exactly one record, carrying the later payload. -/
theorem putRecord_upsert_latest_witness :
    (putRecord Course.id { id := 7, name := "B", summary := "s2", cachedAt := 2 }
      (putRecord Course.id { id := 7, name := "A", summary := "s1", cachedAt := 1 } [])).filter
      (fun x => Course.id x == 7)
      = [{ id := 7, name := "B", summary := "s2", cachedAt := 2 }] :=
  (putRecord_upsert_latest Course.id []
    { id := 7, name := "A", summary := "s1", cachedAt := 1 }
    { id := 7, name := "B", summary := "s2", cachedAt := 2 }
    List.Pairwise.nil rfl).1

/-! ### `storeSubmission` always stores unsynced (claim C9) -/

/-- C9: whatever the fields of the input record, the entry
`storeSubmission` writes has `synced = false` and a fresh `storedAt`;
re-storing an already-synced submission therefore resets it to unsynced
and it shows up again in `getPendingSubmissions`. -/
theorem storeSubmission_resets (now : Nat) (sub : Submission) (subs : List Submission)
    (hs : StoreSorted Submission.id subs) :
    (storeSubmission now sub subs).find? (fun s => s.id == sub.id)
        = some { sub with synced := false, storedAt := now } ∧
    { sub with synced := false, storedAt := now } ∈
      getPendingSubmissions (storeSubmission now sub subs) := by
  constructor
  · exact find?_putRecord_self { sub with synced := false, storedAt := now } hs
  · rw [getPendingSubmissions, List.mem_filter]
    exact ⟨mem_putRecord_self _ _ _, rfl⟩

/-- C9 witness: re-storing a submission previously marked
`synced = true` yields a stored record with `synced = false`,
`storedAt = 9`, again pending. -/
theorem storeSubmission_resets_witness :
    (storeSubmission 9
        { id := 3, quizId := 1, userId := 2, answers := [(1, 0)], completedAt := 4, token := "t"
          synced := true, storedAt := 4, syncedAt := some 5 } []).find?
        (fun s => s.id == 3)
      = some { id := 3, quizId := 1, userId := 2, answers := [(1, 0)], completedAt := 4
               token := "t", synced := false, storedAt := 9, syncedAt := some 5 } ∧
    ({ id := 3, quizId := 1, userId := 2, answers := [(1, 0)], completedAt := 4, token := "t"
       synced := false, storedAt := 9, syncedAt := some 5 } : Submission) ∈
      getPendingSubmissions (storeSubmission 9
        { id := 3, quizId := 1, userId := 2, answers := [(1, 0)], completedAt := 4, token := "t"
          synced := true, storedAt := 4, syncedAt := some 5 } []) :=
  storeSubmission_resets 9
    { id := 3, quizId := 1, userId := 2, answers := [(1, 0)], completedAt := 4, token := "t"
      synced := true, storedAt := 4, syncedAt := some 5 } [] List.Pairwise.nil

/-! ### `markSubmissionSynced` on an absent id (claim C10) -/

/-- C10: when no stored submission has the given id, the `get` comes
back empty, the `if (submission)` guard skips the `put`, and the whole
database is returned unchanged — a silent no-op, not a failure (the
embedded operation is total; the source path throws nothing). -/
theorem markSubmissionSynced_missing_noop (now i : Nat) (db : OfflineDB)
    (h : ∀ s ∈ db.submissions, s.id ≠ i) :
    markSubmissionSyncedDB now i db = db := by
  have hfind : db.submissions.find? (fun s => s.id == i) = none := by
    rw [List.find?_eq_none]
    intro s hs
    simp [h s hs]
  rw [markSubmissionSyncedDB, markSubmissionSynced, hfind]

/-- C10 witness: marking id 2 synced in a store holding only id 1
leaves the database unchanged. -/
theorem markSubmissionSynced_missing_noop_witness :
    markSubmissionSyncedDB 7 2
      { OfflineDB.empty with submissions :=
          [{ id := 1, quizId := 1, userId := 1, answers := [], completedAt := 1, token := ""
             synced := false, storedAt := 1, syncedAt := none }] }
      = { OfflineDB.empty with submissions :=
          [{ id := 1, quizId := 1, userId := 1, answers := [], completedAt := 1, token := ""
             synced := false, storedAt := 1, syncedAt := none }] } :=
  markSubmissionSynced_missing_noop 7 2 _ (by decide)

/-! ### `completeQuiz` and the ledger (claim C1) -/

/-- C1 counterexample: completing a quiz while online with the remote
submit failing.  The remote call is attempted (`[5]`) yet the ledger is
left completely empty — no PendingOperation was stored before the
remote call, and nothing remains for the Reconciler after the failed
attempt, contradicting the claim. -/
theorem completeQuiz_online_skips_ledger :
    completeQuiz true false 5 3 4 [(1, 1)] "tok" [] = ([], [5]) := rfl

/-- C1 amended: `completeQuiz` while offline durably stores the fresh
submission as an unsynced PendingOperation and attempts no remote call;
while online it attempts the remote submit immediately but never writes
to the ledger, whether that attempt succeeds or fails (a failed online
submit leaves no entry behind). -/
theorem completeQuiz_ledger_behavior (remoteOk : Bool) (now quizId userId : Nat)
    (answers : List (Nat × Nat)) (token : String) (subs : List Submission) :
    completeQuiz true remoteOk now quizId userId answers token subs = (subs, [now]) ∧
    completeQuiz false remoteOk now quizId userId answers token subs =
      (storeSubmission now (newSubmission now quizId userId answers token) subs, []) ∧
    newSubmission now quizId userId answers token ∈
      getPendingSubmissions
        (completeQuiz false remoteOk now quizId userId answers token subs).1 := by
  refine ⟨rfl, rfl, ?_⟩
  rw [getPendingSubmissions, List.mem_filter]
  exact ⟨mem_putRecord_self _ _ _, rfl⟩

/-! ### Offline course reads degrade, never crash (claim C6) -/

theorem foldl_put_ne_nil (now : Nat) :
    ∀ (cs l : List Course), l ≠ [] →
      cs.foldl (fun acc c => putRecord Course.id { c with cachedAt := now } acc) l ≠ [] := by
  intro cs
  induction cs with
  | nil =>
    intro l h
    simpa using h
  | cons c cs ih =>
    intro l _
    simp only [List.foldl_cons]
    exact ih _ (putRecord_ne_nil _ _ _)

theorem storeCourses_ne_nil (now : Nat) (cs cache : List Course) (h : cs ≠ []) :
    storeCourses now cs cache ≠ [] := by
  match cs, h with
  | c :: cs, _ =>
    simp only [storeCourses, List.foldl_cons]
    exact foldl_put_ne_nil now cs _ (putRecord_ne_nil _ _ _)

/-- C6: reading courses while offline serves the cache, never crashing.
With any nonempty cache — in particular the cache left by a prior
successful online fetch — the cached sequence is returned unchanged with
no error; with an empty cache an empty sequence is returned together
with the surfaced not-available-offline condition. -/
theorem loadCourses_offline_degrades (cache cs : List Course) (r : Option (List Course))
    (now1 now2 now3 : Nat) (hcs : cs ≠ []) :
    (cache ≠ [] → loadCourses false r now1 cache = (cache, cache, none)) ∧
    loadCourses false r now1 [] = ([], [], some offlineNoCoursesMsg) ∧
    loadCourses false r now3 ((loadCourses true (some cs) now2 cache).2.1) =
      ((loadCourses true (some cs) now2 cache).2.1,
       (loadCourses true (some cs) now2 cache).2.1, none) := by
  refine ⟨?_, rfl, ?_⟩
  · intro h
    have hne : cache.isEmpty = false := by
      simpa [List.isEmpty_iff] using h
    simp [loadCourses, getCachedCourses, hne]
  · have hne : (storeCourses now2 cs cache).isEmpty = false := by
      simpa [List.isEmpty_iff] using storeCourses_ne_nil now2 cs cache hcs
    simp [loadCourses, getCachedCourses, hne]

/-- C6 witness: offline read of an empty cache surfaces the condition;
after an online fetch of one course, the offline read returns that
cached record unchanged with no error. -/
theorem loadCourses_offline_degrades_witness :
    loadCourses false none 1 [] = ([], [], some offlineNoCoursesMsg) ∧
    loadCourses false none 3
        ((loadCourses true (some [{ id := 1, name := "c", summary := "", cachedAt := 0 }]) 2
          []).2.1) =
      ([{ id := 1, name := "c", summary := "", cachedAt := 2 }],
       [{ id := 1, name := "c", summary := "", cachedAt := 2 }], none) := by
  have h := loadCourses_offline_degrades []
    [{ id := 1, name := "c", summary := "", cachedAt := 0 }] none 1 2 3 (by simp)
  exact ⟨h.2.1, h.2.2⟩

/-! ### Reconciliation order and failure blocking (claim C2) -/

/-- C2: with exactly three pending send-message operations of one
conversation in the store, created at instants `t1 < t2 < t3` (their
ids, assigned from the creation clock), a reconciliation pass dispatches
them in ascending creation order; and when the dispatch of the second
entry fails, the third is not dispatched in that pass (the error aborts
the loop), which the pass reports as not-completed. -/
theorem syncPendingMessages_fifo (gw : Nat → Bool) (now : Nat) (msgs : List Message)
    (m1 m2 m3 : Message) (hsort : StoreSorted Message.id msgs)
    (hp : pendingMessages msgs = [m1, m2, m3])
    (hconv : m1.quizId = m2.quizId ∧ m2.quizId = m3.quizId) :
    (m1.id < m2.id ∧ m2.id < m3.id) ∧
    (gw m1.id = true → gw m2.id = true → gw m3.id = true →
      (syncPendingMessages gw now msgs).2.1 = [m1.id, m2.id, m3.id]) ∧
    (gw m1.id = true → gw m2.id = false →
      (syncPendingMessages gw now msgs).2.1 = [m1.id, m2.id] ∧
      (syncPendingMessages gw now msgs).2.2 = false) := by
  have hsorted3 : List.Pairwise (fun a b : Message => a.id < b.id) [m1, m2, m3] := by
    rw [← hp]
    exact List.Pairwise.filter _ hsort
  refine ⟨?_, ?_, ?_⟩
  · simp only [List.pairwise_cons, List.mem_cons, List.mem_singleton] at hsorted3
    exact ⟨hsorted3.1 m2 (Or.inl rfl), hsorted3.2.1 m3 (Or.inl rfl)⟩
  · intro h1 h2 h3
    rw [syncPendingMessages, hp]
    simp [drainMsgsGo, h1, h2, h3]
  · intro h1 h2
    rw [syncPendingMessages, hp]
    simp [drainMsgsGo, h1, h2]

/-- C2 witness: three pending student messages of quiz 1 created at
instants 1, 2, 3, with a gateway failing exactly on entry 2. -/
theorem syncPendingMessages_fifo_witness :
    ((1 : Nat) < 2 ∧ (2 : Nat) < 3) ∧
    ((fun i => decide (i ≠ 2) : Nat → Bool) 1 = true →
      (fun i => decide (i ≠ 2) : Nat → Bool) 2 = true →
      (fun i => decide (i ≠ 2) : Nat → Bool) 3 = true →
      (syncPendingMessages (fun i => decide (i ≠ 2)) 9
        [{ id := 1, quizId := 1, type := MsgType.student, content := "a", timestamp := 1
           sender := "s", synced := false, syncedAt := none, storedAt := some 1 },
         { id := 2, quizId := 1, type := MsgType.student, content := "b", timestamp := 2
           sender := "s", synced := false, syncedAt := none, storedAt := some 2 },
         { id := 3, quizId := 1, type := MsgType.student, content := "c", timestamp := 3
           sender := "s", synced := false, syncedAt := none, storedAt := some 3 }]).2.1
        = [1, 2, 3]) ∧
    ((fun i => decide (i ≠ 2) : Nat → Bool) 1 = true →
      (fun i => decide (i ≠ 2) : Nat → Bool) 2 = false →
      (syncPendingMessages (fun i => decide (i ≠ 2)) 9
        [{ id := 1, quizId := 1, type := MsgType.student, content := "a", timestamp := 1
           sender := "s", synced := false, syncedAt := none, storedAt := some 1 },
         { id := 2, quizId := 1, type := MsgType.student, content := "b", timestamp := 2
           sender := "s", synced := false, syncedAt := none, storedAt := some 2 },
         { id := 3, quizId := 1, type := MsgType.student, content := "c", timestamp := 3
           sender := "s", synced := false, syncedAt := none, storedAt := some 3 }]).2.1
        = [1, 2] ∧
      (syncPendingMessages (fun i => decide (i ≠ 2)) 9
        [{ id := 1, quizId := 1, type := MsgType.student, content := "a", timestamp := 1
           sender := "s", synced := false, syncedAt := none, storedAt := some 1 },
         { id := 2, quizId := 1, type := MsgType.student, content := "b", timestamp := 2
           sender := "s", synced := false, syncedAt := none, storedAt := some 2 },
         { id := 3, quizId := 1, type := MsgType.student, content := "c", timestamp := 3
           sender := "s", synced := false, syncedAt := none, storedAt := some 3 }]).2.2
        = false) :=
  syncPendingMessages_fifo (fun i => decide (i ≠ 2)) 9
    [{ id := 1, quizId := 1, type := MsgType.student, content := "a", timestamp := 1
       sender := "s", synced := false, syncedAt := none, storedAt := some 1 },
     { id := 2, quizId := 1, type := MsgType.student, content := "b", timestamp := 2
       sender := "s", synced := false, syncedAt := none, storedAt := some 2 },
     { id := 3, quizId := 1, type := MsgType.student, content := "c", timestamp := 3
       sender := "s", synced := false, syncedAt := none, storedAt := some 3 }]
    { id := 1, quizId := 1, type := MsgType.student, content := "a", timestamp := 1
      sender := "s", synced := false, syncedAt := none, storedAt := some 1 }
    { id := 2, quizId := 1, type := MsgType.student, content := "b", timestamp := 2
      sender := "s", synced := false, syncedAt := none, storedAt := some 2 }
    { id := 3, quizId := 1, type := MsgType.student, content := "c", timestamp := 3
      sender := "s", synced := false, syncedAt := none, storedAt := some 3 }
    (by rw [StoreSorted]; decide) (by rfl) ⟨rfl, rfl⟩

/-! ### No lost writes across restart (claim C3): infrastructure -/

theorem map_id_of_mem {α : Type} {f : α → α} :
    ∀ {l : List α}, (∀ x ∈ l, f x = x) → l.map f = l := by
  intro l h
  induction l with
  | nil => rfl
  | cons x xs ih => simp [h x (by simp), ih fun y hy => h y (by simp [hy])]

theorem updSub_id (now i : Nat) (s : Submission) : (updSub now i s).id = s.id := by
  rw [updSub]
  split <;> rfl

theorem updMsg_id (now : Nat) (m z : Message) : (updMsg now m z).id = z.id := by
  rw [updMsg]
  split
  · rename_i h
    rw [h]
    rfl
  · rfl

theorem drainSubsGo_all_true (now : Nat) :
    ∀ (ps store : List Submission),
      drainSubsGo (fun _ => true) now ps store =
        (ps.foldl (fun st p => markSubmissionSynced now p.id st) store,
         ps.map Submission.id, true) := by
  intro ps
  induction ps with
  | nil =>
    intro store
    rfl
  | cons p ps ih =>
    intro store
    simp [drainSubsGo, ih]

theorem drainMsgsGo_all_true (now : Nat) :
    ∀ (ms store : List Message),
      drainMsgsGo (fun _ => true) now ms store =
        (ms.foldl (fun st m => putRecord Message.id (markMsg now m) st) store,
         ms.map Message.id, true) := by
  intro ms
  induction ms with
  | nil =>
    intro store
    rfl
  | cons m ms ih =>
    intro store
    simp [drainMsgsGo, ih, markMsg]

theorem markSubmissionSynced_eq_map (now i : Nat) :
    ∀ (l : List Submission), StoreSorted Submission.id l →
      markSubmissionSynced now i l = l.map (updSub now i) := by
  intro l
  induction l with
  | nil =>
    intro _
    rfl
  | cons x xs ih =>
    intro hs
    rw [StoreSorted, List.pairwise_cons] at hs
    obtain ⟨hx, hxs⟩ := hs
    by_cases hxi : x.id = i
    · rw [markSubmissionSynced, List.find?_cons_of_pos _ (by simp [hxi])]
      have hrest : ∀ y ∈ xs, updSub now i y = y := by
        intro y hy
        rw [updSub, if_neg (by have := hx y hy; omega)]
      simp only [putRecord]
      rw [if_neg (lt_irrefl _)]
      simp only [if_true]
      simp only [List.map_cons, map_id_of_mem hrest]
      rw [updSub, if_pos hxi]
      rfl
    · rw [markSubmissionSynced, List.find?_cons_of_neg _ (by simp [hxi])]
      have hxup : updSub now i x = x := by rw [updSub, if_neg hxi]
      cases hfind : xs.find? (fun s => s.id == i) with
      | none =>
        have hrest : ∀ y ∈ xs, updSub now i y = y := by
          intro y hy
          have := List.find?_eq_none.mp hfind y hy
          rw [updSub, if_neg (by simpa using this)]
        simp only [List.map_cons, map_id_of_mem hrest, hxup]
      | some s =>
        have hsid : s.id = i := by simpa using List.find?_some hfind
        have hsmem : s ∈ xs := List.mem_of_find?_eq_some hfind
        have hxlt : x.id < s.id := hx s hsmem
        simp only [putRecord]
        rw [if_neg (by omega), if_neg (by omega)]
        have htail : putRecord Submission.id { s with synced := true, syncedAt := some now } xs
            = markSubmissionSynced now i xs := by
          rw [markSubmissionSynced, hfind]
        rw [htail, ih hxs, List.map_cons, hxup]

theorem markSubmissionSynced_sorted (now i : Nat) (l : List Submission)
    (hs : StoreSorted Submission.id l) :
    StoreSorted Submission.id (markSubmissionSynced now i l) := by
  rw [markSubmissionSynced_eq_map now i l hs]
  rw [StoreSorted, List.pairwise_map]
  exact hs.imp fun hab => by simpa [updSub_id] using hab

theorem foldl_mark_eq_map (now : Nat) :
    ∀ (ps store : List Submission), StoreSorted Submission.id store →
      ps.foldl (fun st p => markSubmissionSynced now p.id st) store
        = store.map fun y => ps.foldl (fun z p => updSub now p.id z) y := by
  intro ps
  induction ps with
  | nil =>
    intro store _
    simp
  | cons p ps ih =>
    intro store hs
    simp only [List.foldl_cons]
    have hs2 : StoreSorted Submission.id (store.map (updSub now p.id)) := by
      rw [StoreSorted, List.pairwise_map]
      exact hs.imp fun hab => by simpa [updSub_id] using hab
    rw [markSubmissionSynced_eq_map now p.id store hs, ih _ hs2, List.map_map]
    rfl

theorem markSub_idem (now : Nat) (y : Submission) :
    markSub now (markSub now y) = markSub now y := rfl

theorem foldl_updSub_marked (now : Nat) :
    ∀ (ps : List Submission) (z : Submission), markSub now z = z →
      ps.foldl (fun w p => updSub now p.id w) z = z := by
  intro ps
  induction ps with
  | nil =>
    intro z _
    rfl
  | cons p ps ih =>
    intro z hz
    simp only [List.foldl_cons]
    by_cases h : z.id = p.id
    · rw [updSub, if_pos h]
      rw [hz]
      exact ih z hz
    · rw [updSub, if_neg h]
      exact ih z hz

theorem foldl_updSub_eq (now : Nat) :
    ∀ (ps : List Submission) (y : Submission),
      ps.foldl (fun z p => updSub now p.id z) y
        = if y.id ∈ ps.map Submission.id then markSub now y else y := by
  intro ps
  induction ps with
  | nil =>
    intro y
    simp
  | cons p ps ih =>
    intro y
    simp only [List.foldl_cons]
    by_cases h : y.id = p.id
    · rw [updSub, if_pos h, if_pos (by simp [h])]
      exact foldl_updSub_marked now ps (markSub now y) (markSub_idem now y)
    · rw [updSub, if_neg h, ih]
      simp [List.mem_cons, h]

theorem foldl_updMsg_synced_or_eq (now : Nat) :
    ∀ (ms : List Message) (y : Message),
      (ms.foldl (fun z m => updMsg now m z) y).synced = true ∨
        ms.foldl (fun z m => updMsg now m z) y = y := by
  intro ms
  induction ms with
  | nil =>
    intro y
    exact Or.inr rfl
  | cons m ms ih =>
    intro y
    simp only [List.foldl_cons]
    by_cases h : y.id = m.id
    · rw [updMsg, if_pos h]
      rcases ih (markMsg now m) with h2 | h2
      · exact Or.inl h2
      · exact Or.inl (by rw [h2]; rfl)
    · rw [updMsg, if_neg h]
      exact ih y

theorem foldl_updMsg_synced_of_mem (now : Nat) :
    ∀ (ms : List Message) (y : Message), y.id ∈ ms.map Message.id →
      (ms.foldl (fun z m => updMsg now m z) y).synced = true := by
  intro ms
  induction ms with
  | nil =>
    intro y hy
    simp at hy
  | cons m ms ih =>
    intro y hy
    simp only [List.foldl_cons]
    by_cases h : y.id = m.id
    · rw [updMsg, if_pos h]
      rcases foldl_updMsg_synced_or_eq now ms (markMsg now m) with h2 | h2
      · exact h2
      · rw [h2]
        rfl
    · rw [updMsg, if_neg h]
      apply ih
      simp only [List.map_cons, List.mem_cons] at hy
      rcases hy with hy | hy
      · exact absurd hy h
      · exact hy

theorem foldl_putMsg_eq_map (now : Nat) :
    ∀ (ms store : List Message), StoreSorted Message.id store →
      (∀ m ∈ ms, ∃ x ∈ store, x.id = m.id) →
      ms.foldl (fun st m => putRecord Message.id (markMsg now m) st) store
        = store.map fun y => ms.foldl (fun z m => updMsg now m z) y := by
  intro ms
  induction ms with
  | nil =>
    intro store _ _
    simp
  | cons m ms ih =>
    intro store hs hin
    simp only [List.foldl_cons]
    have hstep : putRecord Message.id (markMsg now m) store
        = store.map (updMsg now m) := by
      rw [putRecord_eq_map (markMsg now m) hs
        (by simpa [markMsg] using hin m (by simp))]
      apply List.map_congr_left
      intro x _
      rw [updMsg]
      rfl
    rw [hstep]
    have hs2 : StoreSorted Message.id (store.map (updMsg now m)) := by
      rw [StoreSorted, List.pairwise_map]
      exact hs.imp fun hab => by simpa [updMsg_id] using hab
    have hin2 : ∀ q ∈ ms, ∃ x ∈ store.map (updMsg now m), x.id = q.id := by
      intro q hq
      obtain ⟨x, hx, hxq⟩ := hin q (by simp [hq])
      exact ⟨updMsg now m x, List.mem_map_of_mem _ hx, by rw [updMsg_id, hxq]⟩
    rw [ih _ hs2 hin2, List.map_map]
    rfl

theorem subsOf_map_id (acts : List (Nat × OfflineAction)) :
    (subsOf acts).map Submission.id
      = (acts.filter fun p => p.2.isSubmit).map (fun p => p.1) := by
  induction acts with
  | nil => rfl
  | cons p acts ih =>
    obtain ⟨t, a⟩ := p
    cases a with
    | submitAttempt q u ans tok =>
      have h1 : subsOf ((t, OfflineAction.submitAttempt q u ans tok) :: acts)
          = newSubmission t q u ans tok :: subsOf acts := rfl
      have h2 : List.filter (fun p => p.2.isSubmit)
            ((t, OfflineAction.submitAttempt q u ans tok) :: acts)
          = (t, OfflineAction.submitAttempt q u ans tok)
              :: List.filter (fun p => p.2.isSubmit) acts := rfl
      rw [h1, h2, List.map_cons, List.map_cons, ih]
      rfl
    | sendMessage q sender content =>
      have h1 : subsOf ((t, OfflineAction.sendMessage q sender content) :: acts)
          = subsOf acts := rfl
      have h2 : List.filter (fun p => p.2.isSubmit)
            ((t, OfflineAction.sendMessage q sender content) :: acts)
          = List.filter (fun p => p.2.isSubmit) acts := rfl
      rw [h1, h2, ih]

theorem msgsOf_map_id (acts : List (Nat × OfflineAction)) :
    (msgsOf acts).map Message.id
      = (acts.filter fun p => p.2.isSend).map (fun p => p.1) := by
  induction acts with
  | nil => rfl
  | cons p acts ih =>
    obtain ⟨t, a⟩ := p
    cases a with
    | submitAttempt q u ans tok =>
      have h1 : msgsOf ((t, OfflineAction.submitAttempt q u ans tok) :: acts)
          = msgsOf acts := rfl
      have h2 : List.filter (fun p => p.2.isSend)
            ((t, OfflineAction.submitAttempt q u ans tok) :: acts)
          = List.filter (fun p => p.2.isSend) acts := rfl
      rw [h1, h2, ih]
    | sendMessage q sender content =>
      have h1 : msgsOf ((t, OfflineAction.sendMessage q sender content) :: acts)
          = { id := t, quizId := q, type := MsgType.student, content := content
              timestamp := t, sender := sender, synced := false, syncedAt := none
              storedAt := some t } :: msgsOf acts := rfl
      have h2 : List.filter (fun p => p.2.isSend)
            ((t, OfflineAction.sendMessage q sender content) :: acts)
          = (t, OfflineAction.sendMessage q sender content)
              :: List.filter (fun p => p.2.isSend) acts := rfl
      rw [h1, h2, List.map_cons, List.map_cons, ih]

theorem subsOf_unsynced (acts : List (Nat × OfflineAction)) :
    ∀ s ∈ subsOf acts, s.synced = false := by
  induction acts with
  | nil => simp [subsOf]
  | cons p acts ih =>
    obtain ⟨t, a⟩ := p
    cases a with
    | submitAttempt q u ans tok =>
      intro s hs
      rw [show subsOf ((t, OfflineAction.submitAttempt q u ans tok) :: acts)
          = newSubmission t q u ans tok :: subsOf acts from rfl] at hs
      rcases List.mem_cons.mp hs with h | h
      · rw [h]
        rfl
      · exact ih s h
    | sendMessage q sender content =>
      intro s hs
      rw [show subsOf ((t, OfflineAction.sendMessage q sender content) :: acts)
          = subsOf acts from rfl] at hs
      exact ih s hs

theorem msgsOf_pending (acts : List (Nat × OfflineAction)) :
    ∀ m ∈ msgsOf acts, m.type = MsgType.student ∧ m.synced = false := by
  induction acts with
  | nil => simp [msgsOf]
  | cons p acts ih =>
    obtain ⟨t, a⟩ := p
    cases a with
    | submitAttempt q u ans tok =>
      intro m hm
      rw [show msgsOf ((t, OfflineAction.submitAttempt q u ans tok) :: acts)
          = msgsOf acts from rfl] at hm
      exact ih m hm
    | sendMessage q sender content =>
      intro m hm
      rw [show msgsOf ((t, OfflineAction.sendMessage q sender content) :: acts)
          = { id := t, quizId := q, type := MsgType.student, content := content
              timestamp := t, sender := sender, synced := false, syncedAt := none
              storedAt := some t } :: msgsOf acts from rfl] at hm
      rcases List.mem_cons.mp hm with h | h
      · rw [h]
        exact ⟨rfl, rfl⟩
      · exact ih m h

theorem applyActions_build :
    ∀ (acts : List (Nat × OfflineAction)) (db : OfflineDB),
      ((acts.map fun p => p.1).Pairwise (· < ·)) →
      (∀ s ∈ db.submissions, ∀ p ∈ acts, s.id < p.1) →
      (∀ m ∈ db.messages, ∀ p ∈ acts, m.id < p.1) →
      applyActions acts db =
        { db with submissions := db.submissions ++ subsOf acts
                  messages := db.messages ++ msgsOf acts } := by
  intro acts
  induction acts with
  | nil =>
    intro db _ _ _
    simp [applyActions, subsOf, msgsOf]
  | cons p acts ih =>
    intro db hinc hbS hbM
    obtain ⟨t, a⟩ := p
    simp only [List.map_cons, List.pairwise_cons] at hinc
    obtain ⟨hlt, hinc2⟩ := hinc
    cases a with
    | submitAttempt q u ans tok =>
      have hfold : applyActions ((t, OfflineAction.submitAttempt q u ans tok) :: acts) db
          = applyActions acts (applyOffline (t, OfflineAction.submitAttempt q u ans tok) db) :=
        rfl
      have hstep : applyOffline (t, OfflineAction.submitAttempt q u ans tok) db
          = { db with submissions := db.submissions ++ [newSubmission t q u ans tok] } := by
        show ({ db with submissions :=
            storeSubmission t (newSubmission t q u ans tok) db.submissions } : OfflineDB) = _
        rw [storeSubmission, putRecord_append_gt _ (fun x hx =>
          hbS x hx (t, OfflineAction.submitAttempt q u ans tok) (by simp))]
        rfl
      rw [hfold, hstep]
      rw [ih _ hinc2
        (by
          intro s hs p2 hp2
          rcases List.mem_append.mp hs with h | h
          · exact hbS s h p2 (by simp [hp2])
          · have hsn : s = newSubmission t q u ans tok := by simpa using h
            rw [hsn]
            exact hlt p2.1 (List.mem_map_of_mem _ hp2))
        (by
          intro m hm p2 hp2
          exact hbM m hm p2 (by simp [hp2]))]
      rw [show subsOf ((t, OfflineAction.submitAttempt q u ans tok) :: acts)
          = newSubmission t q u ans tok :: subsOf acts from rfl,
        show msgsOf ((t, OfflineAction.submitAttempt q u ans tok) :: acts)
          = msgsOf acts from rfl]
      simp [List.append_assoc]
    | sendMessage q sender content =>
      have hfold : applyActions ((t, OfflineAction.sendMessage q sender content) :: acts) db
          = applyActions acts (applyOffline (t, OfflineAction.sendMessage q sender content) db) :=
        rfl
      have hstep : applyOffline (t, OfflineAction.sendMessage q sender content) db
          = { db with messages := db.messages ++
              [{ id := t, quizId := q, type := MsgType.student, content := content
                 timestamp := t, sender := sender, synced := false, syncedAt := none
                 storedAt := some t }] } := by
        show ({ db with messages := (storeChatMessage q t
            { id := t, quizId := q, type := MsgType.student, content := content, timestamp := t
              sender := sender, synced := false, syncedAt := none, storedAt := none }
            db.messages) } : OfflineDB) = _
        rw [storeChatMessage, putRecord_append_gt _ (fun x hx =>
          hbM x hx (t, OfflineAction.sendMessage q sender content) (by simp))]
      rw [hfold, hstep]
      rw [ih _ hinc2
        (by
          intro s hs p2 hp2
          exact hbS s hs p2 (by simp [hp2]))
        (by
          intro m hm p2 hp2
          rcases List.mem_append.mp hm with h | h
          · exact hbM m h p2 (by simp [hp2])
          · rw [List.mem_singleton.mp h]
            exact hlt p2.1 (List.mem_map_of_mem _ hp2))]
      rw [show subsOf ((t, OfflineAction.sendMessage q sender content) :: acts)
          = subsOf acts from rfl,
        show msgsOf ((t, OfflineAction.sendMessage q sender content) :: acts)
          = { id := t, quizId := q, type := MsgType.student, content := content
              timestamp := t, sender := sender, synced := false, syncedAt := none
              storedAt := some t } :: msgsOf acts from rfl]
      simp [List.append_assoc]

theorem sorted_subsOf (acts : List (Nat × OfflineAction))
    (hinc : (acts.map fun p => p.1).Pairwise (· < ·)) :
    StoreSorted Submission.id (subsOf acts) := by
  have h1 : List.Pairwise (· < ·) ((subsOf acts).map Submission.id) := by
    rw [subsOf_map_id]
    exact List.Pairwise.sublist (List.Sublist.map _ (List.filter_sublist _)) hinc
  exact List.pairwise_map.mp h1

theorem sorted_msgsOf (acts : List (Nat × OfflineAction))
    (hinc : (acts.map fun p => p.1).Pairwise (· < ·)) :
    StoreSorted Message.id (msgsOf acts) := by
  have h1 : List.Pairwise (· < ·) ((msgsOf acts).map Message.id) := by
    rw [msgsOf_map_id]
    exact List.Pairwise.sublist (List.Sublist.map _ (List.filter_sublist _)) hinc
  exact List.pairwise_map.mp h1

theorem syncPendingData_noop (gwS gwM : Nat → Bool) (now : Nat) (db : OfflineDB)
    (h1 : getPendingSubmissions db.submissions = [])
    (h2 : pendingMessages db.messages = []) :
    syncPendingData gwS gwM now db = (db, [], []) := by
  simp [syncPendingData, syncPendingMessages, h1, h2, drainSubsGo, drainMsgsGo]

theorem syncPendingData_all_true (now : Nat) (db : OfflineDB)
    (hS : StoreSorted Submission.id db.submissions)
    (hM : StoreSorted Message.id db.messages) :
    syncPendingData (fun _ => true) (fun _ => true) now db
      = ({ db with
            submissions := db.submissions.map fun y =>
              (getPendingSubmissions db.submissions).foldl (fun z p => updSub now p.id z) y
            messages := db.messages.map fun y =>
              (pendingMessages db.messages).foldl (fun z m => updMsg now m z) y },
         (getPendingSubmissions db.submissions).map Submission.id,
         (pendingMessages db.messages).map Message.id) := by
  have hin : ∀ m ∈ pendingMessages db.messages, ∃ x ∈ db.messages, x.id = m.id := by
    intro m hm
    exact ⟨m, (List.mem_filter.mp hm).1, rfl⟩
  simp only [syncPendingData, syncPendingMessages, drainSubsGo_all_true, drainMsgsGo_all_true]
  rw [foldl_mark_eq_map now _ _ hS, foldl_putMsg_eq_map now _ _ hM hin]
  simp

/-- C3: no lost writes.  Any sequence of offline quiz completions and
message sends at strictly increasing instants, applied to a fresh store,
survives reopening the store (restart); when connectivity returns, one
reconciliation pass with a never-failing remote dispatches every queued
submission and message exactly once (the two dispatch lists are exactly
the action instants, in order, and together are a permutation of all
action instants), leaves nothing pending, and a second forced pass
performs zero remote calls and changes nothing. -/
theorem syncPendingData_no_lost_writes (acts : List (Nat × OfflineAction)) (now1 now2 : Nat)
    (hinc : (acts.map fun p => p.1).Pairwise (· < ·)) :
    (syncPendingData (fun _ => true) (fun _ => true) now1
        (reopenDB (applyActions acts OfflineDB.empty))).2.1
      = (acts.filter fun p => p.2.isSubmit).map (fun p => p.1) ∧
    (syncPendingData (fun _ => true) (fun _ => true) now1
        (reopenDB (applyActions acts OfflineDB.empty))).2.2
      = (acts.filter fun p => p.2.isSend).map (fun p => p.1) ∧
    ((syncPendingData (fun _ => true) (fun _ => true) now1
        (reopenDB (applyActions acts OfflineDB.empty))).2.1 ++
      (syncPendingData (fun _ => true) (fun _ => true) now1
        (reopenDB (applyActions acts OfflineDB.empty))).2.2).Perm
      (acts.map fun p => p.1) ∧
    getPendingSubmissions (syncPendingData (fun _ => true) (fun _ => true) now1
        (reopenDB (applyActions acts OfflineDB.empty))).1.submissions = [] ∧
    pendingMessages (syncPendingData (fun _ => true) (fun _ => true) now1
        (reopenDB (applyActions acts OfflineDB.empty))).1.messages = [] ∧
    syncPendingData (fun _ => true) (fun _ => true) now2
        (syncPendingData (fun _ => true) (fun _ => true) now1
          (reopenDB (applyActions acts OfflineDB.empty))).1
      = ((syncPendingData (fun _ => true) (fun _ => true) now1
          (reopenDB (applyActions acts OfflineDB.empty))).1, [], []) := by
  have hdb : reopenDB (applyActions acts OfflineDB.empty)
      = { OfflineDB.empty with submissions := subsOf acts, messages := msgsOf acts } := by
    show applyActions acts OfflineDB.empty = _
    rw [applyActions_build acts OfflineDB.empty hinc (by simp [OfflineDB.empty])
      (by simp [OfflineDB.empty])]
    simp [OfflineDB.empty]
  have hpendS : getPendingSubmissions (subsOf acts) = subsOf acts :=
    List.filter_eq_self.mpr fun s hs => by simp [subsOf_unsynced acts s hs]
  have hpendM : pendingMessages (msgsOf acts) = msgsOf acts :=
    List.filter_eq_self.mpr fun m hm => by
      obtain ⟨ht, hsy⟩ := msgsOf_pending acts m hm
      simp [ht, hsy]
  have hS : StoreSorted Submission.id (subsOf acts) := sorted_subsOf acts hinc
  have hM : StoreSorted Message.id (msgsOf acts) := sorted_msgsOf acts hinc
  have hsync := syncPendingData_all_true now1
    { OfflineDB.empty with submissions := subsOf acts, messages := msgsOf acts } hS hM
  have h1 : (syncPendingData (fun _ => true) (fun _ => true) now1
      (reopenDB (applyActions acts OfflineDB.empty))).2.1
      = (acts.filter fun p => p.2.isSubmit).map (fun p => p.1) := by
    rw [hdb, hsync]
    show (getPendingSubmissions (subsOf acts)).map Submission.id = _
    rw [hpendS, subsOf_map_id]
  have h2 : (syncPendingData (fun _ => true) (fun _ => true) now1
      (reopenDB (applyActions acts OfflineDB.empty))).2.2
      = (acts.filter fun p => p.2.isSend).map (fun p => p.1) := by
    rw [hdb, hsync]
    show (pendingMessages (msgsOf acts)).map Message.id = _
    rw [hpendM, msgsOf_map_id]
  have h4 : getPendingSubmissions (syncPendingData (fun _ => true) (fun _ => true) now1
      (reopenDB (applyActions acts OfflineDB.empty))).1.submissions = [] := by
    rw [hdb, hsync]
    show getPendingSubmissions ((subsOf acts).map fun y =>
      (getPendingSubmissions (subsOf acts)).foldl (fun z p => updSub now1 p.id z) y) = []
    rw [hpendS, getPendingSubmissions, List.filter_eq_nil_iff]
    intro z hz
    obtain ⟨y, hy, hz2⟩ := List.mem_map.mp hz
    rw [← hz2, foldl_updSub_eq, if_pos (List.mem_map_of_mem _ hy)]
    simp [markSub]
  have h5 : pendingMessages (syncPendingData (fun _ => true) (fun _ => true) now1
      (reopenDB (applyActions acts OfflineDB.empty))).1.messages = [] := by
    rw [hdb, hsync]
    show pendingMessages ((msgsOf acts).map fun y =>
      (pendingMessages (msgsOf acts)).foldl (fun z m => updMsg now1 m z) y) = []
    rw [hpendM, pendingMessages, List.filter_eq_nil_iff]
    intro z hz
    obtain ⟨y, hy, hz2⟩ := List.mem_map.mp hz
    have hsy : z.synced = true := by
      rw [← hz2]
      exact foldl_updMsg_synced_of_mem now1 (msgsOf acts) y (List.mem_map_of_mem _ hy)
    simp [hsy]
  refine ⟨h1, h2, ?_, h4, h5, ?_⟩
  · rw [h1, h2]
    have hsend : List.filter (fun p => p.2.isSend) acts
        = List.filter (fun x => !x.2.isSubmit) acts := by
      simp only [OfflineAction.isSend]
    rw [hsend, ← List.map_append]
    exact (List.filter_append_perm _ acts).map _
  · exact syncPendingData_noop _ _ now2 _ h4 h5

/-- C3 witness: one offline quiz completion at instant 1 followed by one
offline message send at instant 2; the reconciliation pass dispatches
submission 1 and message 2, and a second pass performs zero calls. -/
theorem syncPendingData_no_lost_writes_witness :
    (syncPendingData (fun _ => true) (fun _ => true) 5
        (reopenDB (applyActions
          [(1, OfflineAction.submitAttempt 10 20 [(1, 0)] "tok"),
           (2, OfflineAction.sendMessage 10 "alice" "hi")] OfflineDB.empty))).2.1 = [1] ∧
    (syncPendingData (fun _ => true) (fun _ => true) 5
        (reopenDB (applyActions
          [(1, OfflineAction.submitAttempt 10 20 [(1, 0)] "tok"),
           (2, OfflineAction.sendMessage 10 "alice" "hi")] OfflineDB.empty))).2.2 = [2] ∧
    syncPendingData (fun _ => true) (fun _ => true) 6
        (syncPendingData (fun _ => true) (fun _ => true) 5
          (reopenDB (applyActions
            [(1, OfflineAction.submitAttempt 10 20 [(1, 0)] "tok"),
             (2, OfflineAction.sendMessage 10 "alice" "hi")] OfflineDB.empty))).1
      = ((syncPendingData (fun _ => true) (fun _ => true) 5
          (reopenDB (applyActions
            [(1, OfflineAction.submitAttempt 10 20 [(1, 0)] "tok"),
             (2, OfflineAction.sendMessage 10 "alice" "hi")] OfflineDB.empty))).1, [], []) := by
  have h := syncPendingData_no_lost_writes
    [(1, OfflineAction.submitAttempt 10 20 [(1, 0)] "tok"),
     (2, OfflineAction.sendMessage 10 "alice" "hi")] 5 6 (by decide)
  exact ⟨h.1.trans rfl, h.2.1.trans rfl, h.2.2.2.2.2⟩

/-! ### Message merge (claim C7) -/

theorem dedupeById_append (ms : List Message) :
    ∀ acc : List Message, ∃ t, dedupeById acc ms = acc ++ t := by
  induction ms with
  | nil =>
    intro acc
    exact ⟨[], by simp [dedupeById]⟩
  | cons m ms ih =>
    intro acc
    rw [dedupeById]
    split
    · exact ih acc
    · obtain ⟨t, ht⟩ := ih (acc ++ [m])
      exact ⟨m :: t, by rw [ht, List.append_assoc]; rfl⟩

theorem mem_dedupeById (ms : List Message) :
    ∀ (acc : List Message) (x : Message), x ∈ dedupeById acc ms → x ∈ acc ∨ x ∈ ms := by
  induction ms with
  | nil =>
    intro acc x h
    rw [dedupeById] at h
    exact Or.inl h
  | cons m ms ih =>
    intro acc x h
    rw [dedupeById] at h
    split at h
    · rcases ih _ _ h with h2 | h2
      · exact Or.inl h2
      · exact Or.inr (by simp [h2])
    · rcases ih _ _ h with h2 | h2
      · rcases List.mem_append.mp h2 with h3 | h3
        · exact Or.inl h3
        · exact Or.inr (by simp [List.mem_singleton.mp h3])
      · exact Or.inr (by simp [h2])

theorem ids_dedupeById (ms : List Message) :
    ∀ (acc : List Message) (i : Nat),
      (i ∈ (dedupeById acc ms).map Message.id ↔
        i ∈ acc.map Message.id ∨ i ∈ ms.map Message.id) := by
  induction ms with
  | nil =>
    intro acc i
    rw [dedupeById]
    simp
  | cons m ms ih =>
    intro acc i
    rw [dedupeById]
    split
    · rename_i hfound
      rw [ih]
      obtain ⟨y, hy⟩ := Option.isSome_iff_exists.mp hfound
      have hymem : y ∈ acc := List.mem_of_find?_eq_some hy
      have hyid : y.id = m.id := by simpa using List.find?_some hy
      simp only [List.map_cons, List.mem_cons]
      constructor
      · rintro (h | h)
        · exact Or.inl h
        · exact Or.inr (Or.inr h)
      · rintro (h | h | h)
        · exact Or.inl h
        · refine Or.inl ?_
          rw [h, ← hyid]
          exact List.mem_map_of_mem _ hymem
        · exact Or.inr h
    · rw [ih]
      simp only [List.map_append, List.mem_append, List.map_cons, List.mem_cons,
        List.map_nil, List.mem_singleton]
      tauto

theorem nodup_dedupeById (ms : List Message) :
    ∀ acc : List Message, (acc.map Message.id).Nodup →
      ((dedupeById acc ms).map Message.id).Nodup := by
  induction ms with
  | nil =>
    intro acc h
    rw [dedupeById]
    exact h
  | cons m ms ih =>
    intro acc h
    rw [dedupeById]
    split
    · exact ih _ h
    · rename_i hnone
      apply ih
      have hfn : acc.find? (fun x => x.id == m.id) = none := by
        rcases hval : acc.find? (fun x => x.id == m.id) with _ | y
        · exact hval
        · rw [hval] at hnone
          simp at hnone
      have hnotin : m.id ∉ acc.map Message.id := by
        intro hmem
        obtain ⟨x, hx, hxid⟩ := List.mem_map.mp hmem
        have := List.find?_eq_none.mp hfn x hx
        simp [hxid] at this
      rw [List.map_append]
      rw [List.nodup_append]
      exact ⟨h, by simp, by
        intro a ha hb
        simp only [List.map_cons, List.map_nil, List.mem_singleton] at hb
        rw [hb] at ha
        exact hnotin ha⟩

theorem dedupeById_keeps_first (ms : List Message) :
    ∀ (acc : List Message) (m : Message), m ∈ ms →
      (∀ x ∈ acc, x.id ≠ m.id) →
      ms.countP (fun x => x.id == m.id) = 1 →
      m ∈ dedupeById acc ms := by
  induction ms with
  | nil =>
    intro acc m hm
    simp at hm
  | cons y ys ih =>
    intro acc m hm hacc hcount
    rw [List.countP_cons] at hcount
    by_cases hy : y.id = m.id
    · have hc0 : ys.countP (fun x => x.id == m.id) = 0 := by
        rw [if_pos (by simp [hy])] at hcount
        omega
      have hmy : m = y := by
        rcases List.mem_cons.mp hm with h | h
        · exact h
        · exfalso
          have := List.countP_eq_zero.mp hc0 m h
          simp at this
      subst hmy
      rw [dedupeById, if_neg (by
        have hfn : acc.find? (fun x => x.id == m.id) = none :=
          List.find?_eq_none.mpr fun x hx => by simp [hacc x hx]
        simp [hfn])]
      obtain ⟨t, ht⟩ := dedupeById_append ys (acc ++ [m])
      rw [ht]
      simp
    · have hm2 : m ∈ ys := by
        rcases List.mem_cons.mp hm with h | h
        · exact absurd (by rw [h] : y.id = m.id).symm (by simpa [eq_comm] using hy)
        · exact h
      have hcount2 : ys.countP (fun x => x.id == m.id) = 1 := by
        rw [if_neg (by simp [hy])] at hcount
        omega
      rw [dedupeById]
      split
      · exact ih acc m hm2 hacc hcount2
      · refine ih (acc ++ [y]) m hm2 ?_ hcount2
        intro x hx
        rcases List.mem_append.mp hx with h | h
        · exact hacc x h
        · rw [List.mem_singleton.mp h]
          exact hy

theorem countP_id_eq_one (l : List Message) (hn : (l.map Message.id).Nodup) (m : Message)
    (hm : m ∈ l) : l.countP (fun x => x.id == m.id) = 1 := by
  induction l with
  | nil => simp at hm
  | cons y ys ih =>
    rw [List.map_cons, List.nodup_cons] at hn
    obtain ⟨hy, hys⟩ := hn
    rw [List.countP_cons]
    rcases List.mem_cons.mp hm with h | h
    · have h0 : ys.countP (fun x => x.id == m.id) = 0 := by
        apply List.countP_eq_zero.mpr
        intro x hx hbx
        apply hy
        have hxm : x.id = m.id := by simpa using hbx
        rw [← h, ← hxm]
        exact List.mem_map_of_mem _ hx
      rw [h0, if_pos (by simp [h])]
    · have hne : y.id ≠ m.id := by
        intro he
        apply hy
        rw [he]
        exact List.mem_map_of_mem _ h
      rw [ih hys h, if_neg (by simp [hne])]

/-- C7: merging the remote message history with the local one takes the
union by message id (each id of either input appears, exactly once —
exact duplicates are dropped, the first occurrence, i.e. the server
copy, winning), sorts the result by timestamp ascending, and keeps every
local message whose id is absent from the remote history.  The
hypothesis is the store invariant on the local history (one record per
id, as delivered by the keyed `messages` store). -/
theorem mergeMessages_spec (serverMessages localMessages : List Message)
    (hlc : ((localMessages.map Message.id)).Nodup) :
    List.Pairwise (fun a b : Message => a.timestamp ≤ b.timestamp)
      (mergeMessages serverMessages localMessages) ∧
    (∀ i, i ∈ (mergeMessages serverMessages localMessages).map Message.id ↔
        i ∈ (serverMessages ++ localMessages).map Message.id) ∧
    ((mergeMessages serverMessages localMessages).map Message.id).Nodup ∧
    (∀ m ∈ localMessages, (∀ x ∈ serverMessages, x.id ≠ m.id) →
      m ∈ mergeMessages serverMessages localMessages) := by
  have hperm : (mergeMessages serverMessages localMessages).Perm
      (dedupeById [] (serverMessages ++ localMessages)) := List.mergeSort_perm _ _
  refine ⟨?_, ?_, ?_, ?_⟩
  · rw [mergeMessages]
    have hs : List.Pairwise
        (fun a b : Message => (decide (a.timestamp ≤ b.timestamp)) = true)
        ((dedupeById [] (serverMessages ++ localMessages)).mergeSort
          fun a b => decide (a.timestamp ≤ b.timestamp)) :=
      List.sorted_mergeSort
        (fun a b c h1 h2 => by
          simp only [decide_eq_true_eq] at h1 h2 ⊢
          omega)
        (fun a b => by
          simp only [Bool.or_eq_true, decide_eq_true_eq]
          omega)
        (dedupeById [] (serverMessages ++ localMessages))
    exact hs.imp fun h => by simpa using h
  · intro i
    rw [List.Perm.mem_iff (hperm.map Message.id), ids_dedupeById]
    simp
  · exact (hperm.map Message.id).nodup_iff.mpr
      (nodup_dedupeById _ [] (by simp))
  · intro m hm hsv
    rw [hperm.mem_iff]
    refine dedupeById_keeps_first _ [] m (by simp [hm]) (by simp) ?_
    rw [List.countP_append]
    have h0 : serverMessages.countP (fun x => x.id == m.id) = 0 :=
      List.countP_eq_zero.mpr fun x hx => by simp [hsv x hx]
    have h1 : localMessages.countP (fun x => x.id == m.id) = 1 :=
      countP_id_eq_one localMessages hlc m hm
    omega

/-- C7 witness: server history `[id 5 at t 50]`, local history holding
an exact duplicate of id 5 plus a local-only id 7 at t 10; the merge is
sorted by timestamp and keeps the local-only message. -/
theorem mergeMessages_spec_witness :
    List.Pairwise (fun a b : Message => a.timestamp ≤ b.timestamp)
      (mergeMessages
        [{ id := 5, quizId := 1, type := MsgType.teacher, content := "w", timestamp := 50
           sender := "t", synced := true, syncedAt := none, storedAt := some 50 }]
        [{ id := 5, quizId := 1, type := MsgType.teacher, content := "w", timestamp := 50
           sender := "t", synced := true, syncedAt := none, storedAt := some 50 },
         { id := 7, quizId := 1, type := MsgType.student, content := "q", timestamp := 10
           sender := "s", synced := false, syncedAt := none, storedAt := some 10 }]) ∧
    ({ id := 7, quizId := 1, type := MsgType.student, content := "q", timestamp := 10
       sender := "s", synced := false, syncedAt := none, storedAt := some 10 } : Message) ∈
      mergeMessages
        [{ id := 5, quizId := 1, type := MsgType.teacher, content := "w", timestamp := 50
           sender := "t", synced := true, syncedAt := none, storedAt := some 50 }]
        [{ id := 5, quizId := 1, type := MsgType.teacher, content := "w", timestamp := 50
           sender := "t", synced := true, syncedAt := none, storedAt := some 50 },
         { id := 7, quizId := 1, type := MsgType.student, content := "q", timestamp := 10
           sender := "s", synced := false, syncedAt := none, storedAt := some 10 }] := by
  have h := mergeMessages_spec
    [{ id := 5, quizId := 1, type := MsgType.teacher, content := "w", timestamp := 50
       sender := "t", synced := true, syncedAt := none, storedAt := some 50 }]
    [{ id := 5, quizId := 1, type := MsgType.teacher, content := "w", timestamp := 50
       sender := "t", synced := true, syncedAt := none, storedAt := some 50 },
     { id := 7, quizId := 1, type := MsgType.student, content := "q", timestamp := 10
       sender := "s", synced := false, syncedAt := none, storedAt := some 10 }]
    (by decide)
  exact ⟨h.1, h.2.2.2 _ (by decide) (by decide)⟩
